import Mathlib

/-!
Shallow embedding of the `praborrow-defense` procedural macro
(`src/src/lib.rs`, `derive_constitution`) and the code it generates.

The macro reads a `DeriveInput`; when the input is a struct with named
fields it walks the fields in declaration order, and within each field the
attributes in order.  Each `#[invariant(...)]` attribute is parsed with
`syn` (`meta_list.parse_args::<syn::Expr>`); a string-literal argument is
re-parsed (`syn::parse_str::<syn::Expr>`), and the canonical text is then
validated by the external `praborrow_prover::parser::ExpressionParser`.
Any of these three failures aborts the whole derive with a compile error.
Otherwise the macro emits:
  * `CheckProtocol::enforce_law` — sequential short-circuit runtime checks;
  * `ProveInvariant::invariant_expressions` — the static list of all
    canonical invariant texts;
  * `ProveInvariant::compute_data_hash` — SHA-256 over the little-endian
    bytes of the integer-typed fields in declaration order;
  * `ProveInvariant::get_field_provider` / `get_field_value` — a match on
    the integer-typed field names, producing `FieldValue::UInt(x as u64)`
    or `FieldValue::Int(x as i64)`, with a `ProofError::ParseError` fall-through;
  * `ProveInvariant::verify_with_context` — passes the provider and the
    full invariant list to the external `SmtContext`.

External collaborators (the `praborrow_core` error type, the
`praborrow_prover` parser/solver, the `sha2` hash) are not part of this
repository's `src/`; they are modelled as opaque parameters or abstract
data, exactly at the boundary the spec describes in its §6.
-/

namespace PraborrowDefense

/-- The Rust integer types accepted by `is_integer_type` in `src/src/lib.rs`
(`i8 | i16 | i32 | i64 | i128 | isize | u8 | u16 | u32 | u64 | u128 | usize`). -/
inductive IntTy where
  | i8 | i16 | i32 | i64 | i128 | isize
  | u8 | u16 | u32 | u64 | u128 | usize
deriving DecidableEq, Repr

/-- Signedness as the macro determines it: the last path-segment identifier
of the field type starts with the character `u`
(`s.ident.to_string().starts_with('u')`). -/
def IntTy.isUnsigned : IntTy → Bool
  | .u8 | .u16 | .u32 | .u64 | .u128 | .usize => true
  | _ => false

/-- Bit width of the integer type.  `isize`/`usize` are taken to be 64 bits,
the pointer width of the targets the crate is built for. -/
def IntTy.width : IntTy → Nat
  | .i8 => 8 | .i16 => 16 | .i32 => 32 | .i64 => 64 | .i128 => 128 | .isize => 64
  | .u8 => 8 | .u16 => 16 | .u32 => 32 | .u64 => 64 | .u128 => 128 | .usize => 64

/-- The value range of a Rust integer type. -/
def IntTy.inRange (ty : IntTy) (v : Int) : Prop :=
  if ty.isUnsigned then 0 ≤ v ∧ v < 2 ^ ty.width
  else -(2 ^ (ty.width - 1)) ≤ v ∧ v < 2 ^ (ty.width - 1)

instance (ty : IntTy) (v : Int) : Decidable (ty.inRange v) := by
  unfold IntTy.inRange; infer_instance

/-- A field's declared type, as far as the macro inspects it:
`is_integer_type` either recognises one of the twelve integer identifiers
or the field is invisible to the formal-verification path. -/
inductive FieldTy where
  | int (t : IntTy)
  | other
deriving DecidableEq

/-- Translation of `is_integer_type` (`src/src/lib.rs:51`). -/
def is_integer_type : FieldTy → Bool
  | .int _ => true
  | .other => false

/-- A live instance of the derived struct, seen through the numeric values
of its fields: the generated code only ever reads `self.#name` for integer
fields, and evaluates invariant conditions against `self`. -/
def Inst : Type := String → Int

/-- The argument of one `#[invariant(...)]` attribute after `syn` has been
applied, as the macro distinguishes the cases at `src/src/lib.rs:106-134`:

* `exprArg text cond` — `parse_args::<syn::Expr>` succeeded on a
  non-string-literal expression; `text` is its rendered token text
  (`quote! {#expr}.to_string()`) and `cond` its boolean evaluation
  against an instance;
* `strArg s reparsed` — the argument was the string literal `s`;
  `reparsed` is the outcome of `syn::parse_str::<syn::Expr>(&s)`
  (`none` when that re-parse fails);
* `unparsableArg` — `parse_args::<syn::Expr>` itself failed. -/
inductive InvariantArg where
  | exprArg (text : String) (cond : Inst → Bool)
  | strArg (s : String) (reparsed : Option (Inst → Bool))
  | unparsableArg

/-- An attribute on a field: either an `invariant` list attribute or any
other attribute, which the macro skips. -/
inductive Attr where
  | invariant (arg : InvariantArg)
  | otherAttr

/-- One named field of the struct: name, declared type, attributes in
declaration order. -/
structure Field where
  name : String
  ty : FieldTy
  attrs : List Attr

/-- The macro's input: a struct with named fields, or any other shape
(tuple struct, unit struct, enum, union), which fails the
`Data::Struct { fields: Fields::Named(..) }` pattern at `src/src/lib.rs:88`. -/
inductive DeriveInput where
  | namedStruct (fields : List Field)
  | otherShape

/-- The compile errors `derive_constitution` can return instead of code. -/
inductive CompileError where
  | argParseError
  | stringReparseError (s : String)
  | invalidExprError (s : String)

/-- One generated runtime check: the canonical text `condition_str` paired
with the compiled condition `condition_tokens`. -/
abbrev Check : Type := String × (Inst → Bool)

/-- Everything `derive_constitution` accumulates and bakes into the
emitted `impl`s: the runtime checks, the `INVARIANTS` string list, and the
integer fields used for hashing and for the field-provider match arms. -/
structure Generated where
  runtimeChecks : List Check
  invariantStrings : List String
  hashFields : List (String × IntTy)
  fieldArms : List (String × IntTy)

/-- Processing of one field's attribute list (`src/src/lib.rs:100-165`):
non-`invariant` attributes are skipped; an `invariant` attribute whose
argument fails to parse, whose string literal fails to re-parse, or whose
canonical text is rejected by the external validator aborts with the
corresponding compile error; otherwise the (canonical text, condition)
pair is recorded in order. -/
def processAttrs (validate : String → Bool) : List Attr → Except CompileError (List Check)
  | [] => .ok []
  | .otherAttr :: rest => processAttrs validate rest
  | .invariant .unparsableArg :: _ => .error .argParseError
  | .invariant (.strArg s none) :: _ => .error (.stringReparseError s)
  | .invariant (.strArg s (some cond)) :: rest =>
    if validate s then
      match processAttrs validate rest with
      | .ok tail => .ok ((s, cond) :: tail)
      | .error e => .error e
    else .error (.invalidExprError s)
  | .invariant (.exprArg text cond) :: rest =>
    if validate text then
      match processAttrs validate rest with
      | .ok tail => .ok ((text, cond) :: tail)
      | .error e => .error e
    else .error (.invalidExprError text)

/-- Processing of all fields in declaration order: the per-field check
lists are concatenated, and any compile error aborts the whole derive. -/
def processFields (validate : String → Bool) : List Field → Except CompileError (List Check)
  | [] => .ok []
  | f :: rest =>
    match processAttrs validate f.attrs with
    | .error e => .error e
    | .ok checks =>
      match processFields validate rest with
      | .error e => .error e
      | .ok tail => .ok (checks ++ tail)

/-- The integer-typed fields, in declaration order — the
`all_fields.iter().filter(|(_, ty)| is_integer_type(ty))` sequence used
both for `hash_fields` and for `field_match_arms`. -/
def integerFields (fields : List Field) : List (String × IntTy) :=
  fields.filterMap fun f =>
    match f.ty with
    | .int t => some (f.name, t)
    | .other => none

/-- Translation of `derive_constitution` (`src/src/lib.rs:79-283`).
`validate` is the external `ExpressionParser::parse` success predicate.
For a named struct the fields are processed in order and the four
accumulated components populate the generated `impl`s; any attribute
failure aborts with a compile error and no code is generated.  For any
other input shape the `if let` at line 88 does not match, every
accumulator stays empty, and the (trivial) `impl`s are still emitted. -/
def derive_constitution (validate : String → Bool) :
    DeriveInput → Except CompileError Generated
  | .namedStruct fields =>
    match processFields validate fields with
    | .error e => .error e
    | .ok checks =>
      .ok { runtimeChecks := checks
            invariantStrings := checks.map Prod.fst
            hashFields := integerFields fields
            fieldArms := integerFields fields }
  | .otherShape =>
    .ok { runtimeChecks := [], invariantStrings := []
          hashFields := [], fieldArms := [] }

/-- The runtime error type of the external `praborrow_core` module, as far
as the generated code constructs it: an `InvariantViolation` carrying the
violated expression's text and a field-name/value map (built as
`BTreeMap::new()`, i.e. empty, by the generated code). -/
inductive ConstitutionError where
  | invariantViolation (expression : String) (values : List (String × Int))
deriving DecidableEq

/-- The body of the generated `enforce_law` (`src/src/lib.rs:150-157` and
`229-236`): the runtime checks in order, each one an
`if !(cond) { return Err(InvariantViolation { expression, values: BTreeMap::new() }) }`,
followed by `Ok(())`. -/
def runChecks (inst : Inst) : List Check → Except ConstitutionError Unit
  | [] => .ok ()
  | (s, c) :: rest =>
    if c inst then runChecks inst rest
    else .error (.invariantViolation s [])

/-- `CheckProtocol::enforce_law` for the derived type. -/
def enforce_law (g : Generated) (inst : Inst) : Except ConstitutionError Unit :=
  runChecks inst g.runtimeChecks

/-- How many of the generated conditions a call to `enforce_law` actually
evaluates: the generated body runs the `if !(cond)` statements one after
another and `return`s from inside the first one whose condition is false. -/
def runChecksEvalCount (inst : Inst) : List Check → Nat
  | [] => 0
  | (_, c) :: rest =>
    if c inst then 1 + runChecksEvalCount inst rest else 1

/-- The tagged 64-bit value type of `praborrow_prover::backend::FieldValue`,
as far as the generated code constructs it. -/
inductive FieldValue where
  | int (v : Int)
  | uint (v : Nat)
deriving DecidableEq

/-- The prover error type, as far as the generated code constructs it:
`ProofError::ParseError(msg)`. -/
inductive ProofError where
  | parseError (msg : String)
deriving DecidableEq

/-- Rust's `as u64` cast on an integer value: truncation modulo `2 ^ 64`. -/
def toU64 (v : Int) : Nat := (v % (2 ^ 64 : Int)).toNat

/-- Rust's `as i64` cast on an integer value: truncation modulo `2 ^ 64`,
read back as a two's-complement 64-bit signed value. -/
def toI64 (v : Int) : Int :=
  let r := v % (2 ^ 64 : Int)
  if r < 2 ^ 63 then r else r - 2 ^ 64

/-- The value one generated match arm produces (`src/src/lib.rs:213-225`):
`FieldValue::UInt(self.0.#name as u64)` when the declared type's identifier
starts with `u`, `FieldValue::Int(self.0.#name as i64)` otherwise. -/
def fieldArmValue (ty : IntTy) (v : Int) : FieldValue :=
  if ty.isUnsigned then .uint (toU64 v) else .int (toI64 v)

/-- The generated `match name { ... }` of `get_field_value`
(`src/src/lib.rs:259-264`): one arm per integer-typed field in declaration
order, and the fall-through
`_ => Err(ProofError::ParseError(format!("Unknown field: {}", name)))`. -/
def matchFieldArms (inst : Inst) (name : String) :
    List (String × IntTy) → Except ProofError FieldValue
  | [] => .error (.parseError ("Unknown field: " ++ name))
  | (f, ty) :: rest =>
    if f = name then .ok (fieldArmValue ty (inst f))
    else matchFieldArms inst name rest

/-- `FieldValueProvider::get_field_value` of the provider built by the
generated `get_field_provider` from an instance. -/
def get_field_value (g : Generated) (inst : Inst) (name : String) :
    Except ProofError FieldValue :=
  matchFieldArms inst name g.fieldArms

/-- `to_le_bytes` of an integer field value: `width / 8` bytes, little
endian, of the value reduced to the type's width. -/
def leBytes (ty : IntTy) (v : Int) : List Nat :=
  (List.range (ty.width / 8)).map fun i =>
    ((v % (2 ^ ty.width : Int)).toNat / 2 ^ (8 * i)) % 256

/-- The byte stream the generated `compute_data_hash` feeds to the hasher
(`src/src/lib.rs:186-194` and `245-250`): `hasher.update(&self.#name.to_le_bytes())`
for each integer-typed field in declaration order. -/
def hashInput (hashFields : List (String × IntTy)) (inst : Inst) : List Nat :=
  (hashFields.map fun p => leBytes p.2 (inst p.1)).flatten

/-- `ProveInvariant::compute_data_hash`.  The hash function itself
(`praborrow_prover::sha2::Sha256`) is an external dependency; it enters the
model as the abstract digest function `H` applied to the byte stream. -/
def compute_data_hash (H : List Nat → List Nat) (g : Generated) (inst : Inst) :
    List Nat :=
  H (hashInput g.hashFields inst)

/-- The opaque success witness of the external prover. -/
inductive VerificationToken where
  | token
deriving DecidableEq

/-- The external proof context's `verify_invariants` operation, as the
generated code calls it: it receives the field-value provider and the
invariant-expression list and resolves to a token or a proof error. -/
def SmtVerify : Type :=
  (String → Except ProofError FieldValue) → List String →
    Except ProofError VerificationToken

/-- `ProveInvariant::verify_with_context` (`src/src/lib.rs:270-278`): build
the field provider from `self`, call
`ctx.verify_invariants(&*provider, Self::invariant_expressions())`, and
relay the outcome. -/
def verify_with_context (g : Generated) (ctx : SmtVerify) (inst : Inst) :
    Except ProofError VerificationToken :=
  ctx (get_field_value g inst) g.invariantStrings

/-- The canonical texts contributed by one attribute: the rendered token
text of a bare expression argument, or the contents of a string-literal
argument. -/
def attrCanonicalTexts : Attr → List String
  | .invariant (.exprArg text _) => [text]
  | .invariant (.strArg s _) => [s]
  | .invariant .unparsableArg => []
  | .otherAttr => []

/-- All canonical invariant texts of a struct, fields in declaration order
and attributes in order within a field. -/
def invariantTexts (fields : List Field) : List String :=
  (fields.map fun f => (f.attrs.map attrCanonicalTexts).flatten).flatten

/-- Decides whether an attribute would make the derive abort: the argument
fails to parse, the string literal fails to re-parse, or the canonical
text is rejected by the external validator. -/
def attrIsBad (validate : String → Bool) : Attr → Bool
  | .invariant .unparsableArg => true
  | .invariant (.strArg _ none) => true
  | .invariant (.strArg s (some _)) => !validate s
  | .invariant (.exprArg text _) => !validate text
  | .otherAttr => false

/-- Some field carries an invariant declaration the derive must reject. -/
def hasBadInvariant (validate : String → Bool) (fields : List Field) : Bool :=
  fields.any fun f => f.attrs.any (attrIsBad validate)

/-- True when an attribute is an `invariant` attribute. -/
def attrIsInvariant : Attr → Bool
  | .invariant _ => true
  | .otherAttr => false

/-- The record type carries no invariant declarations at all. -/
def noInvariantDecls (fields : List Field) : Bool :=
  fields.all fun f => f.attrs.all fun a => !attrIsInvariant a

/-! Concrete fixtures used to exercise the theorems below on closed inputs. -/

/-- A validator that accepts every canonical text. -/
def validateTrue : String → Bool := fun _ => true

/-- Compiled form of the condition `self.a > 0`. -/
def condA : Inst → Bool := fun i => decide (0 < i "a")

/-- Compiled form of the condition `self.b > 1`. -/
def condB : Inst → Bool := fun i => decide (1 < i "b")

/-- A two-field struct, each field carrying one invariant: the first given
as a bare expression, the second as a string literal. -/
def fieldsC6 : List Field :=
  [⟨"a", .int .i64, [.invariant (.exprArg "self . a > 0" condA)]⟩,
   ⟨"b", .int .i64, [.invariant (.strArg "self.b > 1" (some condB))]⟩]

/-- The code generated for `fieldsC6`. -/
def gC6 : Generated :=
  { runtimeChecks := [("self . a > 0", condA), ("self.b > 1", condB)]
    invariantStrings := ["self . a > 0", "self.b > 1"]
    hashFields := [("a", .i64), ("b", .i64)]
    fieldArms := [("a", .i64), ("b", .i64)] }

/-- An instance with `a = 1` (first invariant holds) and `b = -1`
(second invariant fails). -/
def instA : Inst := fun s => if s = "a" then 1 else -1

/-- An instance on which every condition fails. -/
def instFail : Inst := fun _ => -3

/-- An instance with every field zero. -/
def instZero : Inst := fun _ => 0

/-- A struct whose single invariant argument fails `syn` parsing — the
shape of `tests/ui/invalid_syntax.rs`. -/
def fieldsBad : List Field :=
  [⟨"value", .int .i32, [.invariant .unparsableArg]⟩]

/-- A struct with an integer field and a non-integer field and no
invariant declarations. -/
def fieldsNoInv : List Field :=
  [⟨"value", .int .i32, []⟩, ⟨"label", .other, []⟩]

/-- The code generated for `fieldsNoInv`. -/
def gNoInv : Generated :=
  { runtimeChecks := [], invariantStrings := []
    hashFields := [("value", .i32)], fieldArms := [("value", .i32)] }

/-- A struct with an unsigned and a signed integer field. -/
def fieldsC4 : List Field :=
  [⟨"a", .int .u8, []⟩, ⟨"b", .int .i32, []⟩]

/-- The code generated for `fieldsC4`. -/
def gC4 : Generated :=
  { runtimeChecks := [], invariantStrings := []
    hashFields := [("a", .u8), ("b", .i32)], fieldArms := [("a", .u8), ("b", .i32)] }

/-- An instance with `a = 200`, `b = -5`. -/
def instC4 : Inst := fun s => if s = "a" then 200 else -5

/-- An instance agreeing with `instC4` on the declared fields `a` and `b`
but differing on every other name. -/
def instC4b : Inst := fun s => if s = "a" then 200 else if s = "b" then -5 else 7

/-- A concrete digest function standing in for SHA-256. -/
def HW : List Nat → List Nat := fun l => l

/-- A concrete proof context: succeeds exactly when it receives two
invariant expressions. -/
def ctxW : SmtVerify := fun _ exprs =>
  if exprs.length = 2 then .ok .token else .error (.parseError "missing invariants")

/-! Helper lemmas about the generated runtime-check body. -/

theorem runChecks_of_all_true (inst : Inst) :
    ∀ cs : List Check, (∀ p ∈ cs, p.2 inst = true) → runChecks inst cs = .ok ()
  | [], _ => rfl
  | (s, c) :: rest, h => by
    have hc : c inst = true := h (s, c) (by simp)
    simp only [runChecks, hc, if_true]
    exact runChecks_of_all_true inst rest fun p hp => h p (by simp [hp])

theorem runChecks_append (inst : Inst) :
    ∀ (done cs : List Check), (∀ p ∈ done, p.2 inst = true) →
      runChecks inst (done ++ cs) = runChecks inst cs
  | [], _, _ => rfl
  | (s, c) :: rest, cs, h => by
    have hc : c inst = true := h (s, c) (by simp)
    simp only [List.cons_append, runChecks, hc, if_true]
    exact runChecks_append inst rest cs fun p hp => h p (by simp [hp])

theorem runChecksEvalCount_append_fail (inst : Inst) (s : String) (c : Inst → Bool)
    (cs : List Check) :
    ∀ done : List Check, (∀ p ∈ done, p.2 inst = true) → c inst = false →
      runChecksEvalCount inst (done ++ (s, c) :: cs) = done.length + 1
  | [], _, hc => by simp [runChecksEvalCount, hc]
  | (s', c') :: rest, h, hc => by
    have hc' : c' inst = true := h (s', c') (by simp)
    have ih := runChecksEvalCount_append_fail inst s c cs rest
      (fun p hp => h p (by simp [hp])) hc
    rw [List.cons_append]
    rw [show runChecksEvalCount inst ((s', c') :: (rest ++ (s, c) :: cs)) =
        if c' inst then 1 + runChecksEvalCount inst (rest ++ (s, c) :: cs) else 1 from rfl]
    rw [hc']
    show 1 + runChecksEvalCount inst (rest ++ (s, c) :: cs) = ((s', c') :: rest).length + 1
    rw [ih, List.length_cons]
    omega

/-- Claim C1: for a record type whose invariants were recorded in
declaration order, if some condition is the first one evaluating false on
an instance (every check before it evaluates true, it evaluates false),
`enforce_law` returns a failure whose reported expression text exactly
equals that condition's canonical text, the later conditions are not
evaluated (exactly the earlier checks plus the failing one are), and if
every condition evaluates true, `enforce_law` returns success. -/
theorem enforce_law_first_failure_short_circuit (g : Generated) (inst : Inst) :
    (∀ (done : List Check) (s : String) (c : Inst → Bool) (rest : List Check),
        g.runtimeChecks = done ++ (s, c) :: rest →
        (∀ p ∈ done, p.2 inst = true) → c inst = false →
        enforce_law g inst = .error (.invariantViolation s []) ∧
        runChecksEvalCount inst g.runtimeChecks = done.length + 1) ∧
    ((∀ p ∈ g.runtimeChecks, p.2 inst = true) → enforce_law g inst = .ok ()) := by
  constructor
  · intro done s c rest hsplit hdone hfail
    refine ⟨?_, ?_⟩
    · unfold enforce_law
      rw [hsplit, runChecks_append inst done _ hdone]
      simp [runChecks, hfail]
    · rw [hsplit]
      exact runChecksEvalCount_append_fail inst s c rest done hdone hfail
  · exact fun h => runChecks_of_all_true inst g.runtimeChecks h

/-- Witness for C1: on `gC6`, with `a = 1` and `b = -1`, the second
condition is the first failing one; its text is reported and both (and
only) the first two conditions are evaluated. -/
theorem enforce_law_first_failure_short_circuit_witness :
    enforce_law gC6 instA = .error (.invariantViolation "self.b > 1" []) ∧
    runChecksEvalCount instA gC6.runtimeChecks = 2 := by
  have h := (enforce_law_first_failure_short_circuit gC6 instA).1
    [("self . a > 0", condA)] "self.b > 1" condB [] rfl (by decide) (by decide)
  exact h

/-! Helper lemmas for the compile-time rejection path. -/

theorem processAttrs_error_of_bad (validate : String → Bool) :
    ∀ attrs : List Attr, attrs.any (attrIsBad validate) = true →
      ∃ e, processAttrs validate attrs = .error e
  | [], h => absurd h (by simp)
  | .otherAttr :: rest, h => by
    simp only [List.any_cons, attrIsBad, Bool.false_or] at h
    obtain ⟨e, he⟩ := processAttrs_error_of_bad validate rest h
    exact ⟨e, by simp [processAttrs, he]⟩
  | .invariant .unparsableArg :: _, _ => ⟨.argParseError, rfl⟩
  | .invariant (.strArg s none) :: _, _ => ⟨.stringReparseError s, rfl⟩
  | .invariant (.strArg s (some cond)) :: rest, h => by
    cases hv : validate s with
    | false => exact ⟨.invalidExprError s, by simp [processAttrs, hv]⟩
    | true =>
      simp only [List.any_cons, attrIsBad, hv, Bool.not_true, Bool.false_or] at h
      obtain ⟨e, he⟩ := processAttrs_error_of_bad validate rest h
      exact ⟨e, by simp [processAttrs, hv, he]⟩
  | .invariant (.exprArg text cond) :: rest, h => by
    cases hv : validate text with
    | false => exact ⟨.invalidExprError text, by simp [processAttrs, hv]⟩
    | true =>
      simp only [List.any_cons, attrIsBad, hv, Bool.not_true, Bool.false_or] at h
      obtain ⟨e, he⟩ := processAttrs_error_of_bad validate rest h
      exact ⟨e, by simp [processAttrs, hv, he]⟩

theorem processFields_error_of_bad (validate : String → Bool) :
    ∀ fields : List Field, hasBadInvariant validate fields = true →
      ∃ e, processFields validate fields = .error e
  | [], h => absurd h (by simp [hasBadInvariant])
  | f :: rest, h => by
    cases hp : processAttrs validate f.attrs with
    | error e => exact ⟨e, by simp [processFields, hp]⟩
    | ok checks =>
      have hfok : f.attrs.any (attrIsBad validate) = false := by
        cases hb : f.attrs.any (attrIsBad validate) with
        | false => rfl
        | true =>
          obtain ⟨e, he⟩ := processAttrs_error_of_bad validate f.attrs hb
          rw [hp] at he
          cases he
      have hrest : hasBadInvariant validate rest = true := by
        have h' := h
        simp only [hasBadInvariant, List.any_cons, hfok, Bool.false_or] at h'
        simpa [hasBadInvariant] using h'
      obtain ⟨e, he⟩ := processFields_error_of_bad validate rest hrest
      exact ⟨e, by simp [processFields, hp, he]⟩

/-- Claim C2: whenever some invariant declaration's argument fails to
parse as an expression, or its quoted-string contents fail to re-parse, or
its canonical text is rejected by the external invariant-expression
validator, the derive returns a compile error instead of generated code:
no `Generated` value (and hence neither capability) exists for the type. -/
theorem bad_invariant_derive_aborts (validate : String → Bool) (fields : List Field)
    (h : hasBadInvariant validate fields = true) :
    ∃ e, derive_constitution validate (.namedStruct fields) = .error e := by
  obtain ⟨e, he⟩ := processFields_error_of_bad validate fields h
  exact ⟨e, by simp [derive_constitution, he]⟩

/-- Witness for C2: the struct of `tests/ui/invalid_syntax.rs`, whose
invariant argument is unparsable, is rejected at compile time. -/
theorem bad_invariant_derive_aborts_witness :
    hasBadInvariant validateTrue fieldsBad = true ∧
    ∃ e, derive_constitution validateTrue (.namedStruct fieldsBad) = .error e :=
  ⟨by decide, bad_invariant_derive_aborts validateTrue fieldsBad (by decide)⟩

/-- A successful derive populates the generated `impl`s exactly from the
processed checks and the integer-field list. -/
theorem derive_ok_components (validate : String → Bool) (fields : List Field) (g : Generated)
    (hd : derive_constitution validate (.namedStruct fields) = .ok g) :
    processFields validate fields = .ok g.runtimeChecks ∧
    g.invariantStrings = g.runtimeChecks.map Prod.fst ∧
    g.hashFields = integerFields fields ∧
    g.fieldArms = integerFields fields := by
  cases hp : processFields validate fields with
  | error e => simp [derive_constitution, hp] at hd
  | ok checks =>
    simp only [derive_constitution, hp, Except.ok.injEq] at hd
    subst hd
    exact ⟨rfl, rfl, rfl, rfl⟩

theorem processAttrs_ok_of_no_invariants (validate : String → Bool) :
    ∀ attrs : List Attr, (attrs.all fun a => !attrIsInvariant a) = true →
      processAttrs validate attrs = .ok []
  | [], _ => rfl
  | .otherAttr :: rest, h => by
    simp only [List.all_cons, attrIsInvariant, Bool.not_false, Bool.true_and] at h
    simp only [processAttrs]
    exact processAttrs_ok_of_no_invariants validate rest h
  | .invariant arg :: rest, h => by
    simp [attrIsInvariant] at h

theorem processFields_ok_of_no_invariants (validate : String → Bool) :
    ∀ fields : List Field, noInvariantDecls fields = true →
      processFields validate fields = .ok []
  | [], _ => rfl
  | f :: rest, h => by
    simp only [noInvariantDecls, List.all_cons, Bool.and_eq_true] at h
    have h1 := processAttrs_ok_of_no_invariants validate f.attrs h.1
    have h2 := processFields_ok_of_no_invariants validate rest
      (by simpa [noInvariantDecls] using h.2)
    simp [processFields, h1, h2]

/-- Claim C7: for a record type with zero invariant declarations the
derive succeeds and the generated `enforce_law` returns success on every
instance, whatever its field values. -/
theorem no_invariants_enforce_law_ok (validate : String → Bool) (fields : List Field)
    (g : Generated) (inst : Inst)
    (hno : noInvariantDecls fields = true)
    (hd : derive_constitution validate (.namedStruct fields) = .ok g) :
    enforce_law g inst = .ok () := by
  obtain ⟨hp, -, -, -⟩ := derive_ok_components validate fields g hd
  have h2 := processFields_ok_of_no_invariants validate fields hno
  rw [hp] at h2
  injection h2 with hnil
  simp [enforce_law, hnil, runChecks]

/-- Witness for C7: a struct with an integer and a non-integer field and
no invariants derives successfully and always passes the runtime check. -/
theorem no_invariants_enforce_law_ok_witness :
    noInvariantDecls fieldsNoInv = true ∧
    derive_constitution validateTrue (.namedStruct fieldsNoInv) = .ok gNoInv ∧
    enforce_law gNoInv instZero = .ok () :=
  ⟨by decide, rfl,
    no_invariants_enforce_law_ok validateTrue fieldsNoInv gNoInv instZero (by decide) rfl⟩

theorem matchFieldArms_not_mem (inst : Inst) (name : String) :
    ∀ arms : List (String × IntTy), name ∉ arms.map Prod.fst →
      matchFieldArms inst name arms = .error (.parseError ("Unknown field: " ++ name))
  | [], _ => rfl
  | (f, ty) :: rest, h => by
    simp only [List.map_cons, List.mem_cons, not_or] at h
    have hne : ¬ f = name := fun hf => h.1 hf.symm
    simp only [matchFieldArms, if_neg hne]
    exact matchFieldArms_not_mem inst name rest h.2

/-- Claim C3, counterexample: querying the provider of a derived struct
(single integer field `value`) for the name `foo` yields the message
`Unknown field: foo` — not the `unknown field: ` + backquoted-name text the
claim states. -/
theorem unknown_field_message_counterexample :
    derive_constitution validateTrue (.namedStruct fieldsNoInv) = .ok gNoInv ∧
    get_field_value gNoInv instZero "foo" = .error (.parseError "Unknown field: foo") ∧
    get_field_value gNoInv instZero "foo" ≠ .error (.parseError "unknown field: `foo`") := by
  refine ⟨rfl, rfl, fun h => ?_⟩
  rw [show get_field_value gNoInv instZero "foo" =
      .error (.parseError "Unknown field: foo") from rfl] at h
  injection h with h1
  injection h1 with h2
  exact absurd h2 (by decide)

/-- Claim C3 as amended: for every field name that is not an integer-typed
field of the record, `get_field_value` returns a parse-error-tagged
failure naming the field, with the message text `Unknown field: ` followed
by the requested name (capital `U`, no backquotes around the name). -/
theorem get_field_value_unknown_field_message (validate : String → Bool)
    (fields : List Field) (g : Generated) (inst : Inst) (name : String)
    (hd : derive_constitution validate (.namedStruct fields) = .ok g)
    (hname : name ∉ (integerFields fields).map Prod.fst) :
    get_field_value g inst name = .error (.parseError ("Unknown field: " ++ name)) := by
  obtain ⟨-, -, -, harms⟩ := derive_ok_components validate fields g hd
  unfold get_field_value
  rw [harms]
  exact matchFieldArms_not_mem inst name (integerFields fields) hname

/-- Witness for C3 (amended): `foo` names no integer field of
`fieldsNoInv`, and the provider reports `Unknown field: foo`. -/
theorem get_field_value_unknown_field_message_witness :
    get_field_value gNoInv instZero "foo" =
      .error (.parseError ("Unknown field: " ++ "foo")) :=
  get_field_value_unknown_field_message validateTrue fieldsNoInv gNoInv instZero "foo"
    rfl (by decide)

theorem toU64_small (v : Int) (h0 : 0 ≤ v) (hv : v < 2 ^ 64) : toU64 v = v.toNat := by
  unfold toU64
  rw [Int.emod_eq_of_lt h0 hv]

theorem toI64_small (v : Int) (hlo : -(2 ^ 63) ≤ v) (hhi : v < 2 ^ 63) : toI64 v = v := by
  unfold toI64
  norm_num at hlo hhi ⊢
  split <;> omega

/-- A value inside the declared range of a type of width at most 64 bits
survives the `as u64` / `as i64` narrowing unchanged. -/
theorem narrow_exact (ty : IntTy) (v : Int) (hr : ty.inRange v) (hw : ty.width ≤ 64) :
    (ty.isUnsigned = true → toU64 v = v.toNat) ∧
    (ty.isUnsigned = false → toI64 v = v) := by
  constructor
  · intro hu
    have hr' : 0 ≤ v ∧ v < 2 ^ ty.width := by
      unfold IntTy.inRange at hr
      rw [hu] at hr
      simpa using hr
    exact toU64_small v hr'.1
      (lt_of_lt_of_le hr'.2 (pow_le_pow_right₀ (by norm_num) hw))
  · intro hu
    have hr' : -(2 ^ (ty.width - 1)) ≤ v ∧ v < 2 ^ (ty.width - 1) := by
      unfold IntTy.inRange at hr
      rw [hu] at hr
      simpa using hr
    have hb : (2 : Int) ^ (ty.width - 1) ≤ 2 ^ 63 :=
      pow_le_pow_right₀ (by norm_num) (by omega)
    exact toI64_small v (by linarith [hr'.1, hb]) (by linarith [hr'.2, hb])

theorem matchFieldArms_mem (inst : Inst) :
    ∀ (arms : List (String × IntTy)) (f : String) (ty : IntTy),
      (f, ty) ∈ arms → (arms.map Prod.fst).Nodup →
      matchFieldArms inst f arms = .ok (fieldArmValue ty (inst f))
  | [], f, ty, hmem, _ => absurd hmem (List.not_mem_nil _)
  | (f', ty') :: rest, f, ty, hmem, hnd => by
    simp only [List.map_cons, List.nodup_cons] at hnd
    rcases List.mem_cons.mp hmem with heq | htail
    · cases heq
      simp [matchFieldArms]
    · have hmap : f ∈ rest.map Prod.fst := List.mem_map_of_mem Prod.fst htail
      have hne : ¬ f' = f := fun he => hnd.1 (by rw [he]; exact hmap)
      simp only [matchFieldArms, if_neg hne]
      exact matchFieldArms_mem inst rest f ty htail hnd.2

/-- Claim C4: for every integer-typed field of a (successfully derived)
struct with distinct field names, `get_field_value` returns, without any
range check or error, the 64-bit value of the field tagged `UInt` when the
declared type is unsigned and `Int` when it is signed (both `toU64` and
`toI64` are truncation modulo `2 ^ 64` by definition); when the declared
width is at most 64 bits and the value is in the type's range, the
returned value is the field's exact value. -/
theorem get_field_value_integer_field_tagged (validate : String → Bool)
    (fields : List Field) (g : Generated) (inst : Inst) (f : String) (ty : IntTy)
    (hd : derive_constitution validate (.namedStruct fields) = .ok g)
    (hnd : ((integerFields fields).map Prod.fst).Nodup)
    (hmem : (f, ty) ∈ integerFields fields) :
    get_field_value g inst f = .ok (fieldArmValue ty (inst f)) ∧
    (ty.isUnsigned = true → fieldArmValue ty (inst f) = .uint (toU64 (inst f))) ∧
    (ty.isUnsigned = false → fieldArmValue ty (inst f) = .int (toI64 (inst f))) ∧
    (ty.inRange (inst f) → ty.width ≤ 64 →
      (ty.isUnsigned = true → toU64 (inst f) = (inst f).toNat) ∧
      (ty.isUnsigned = false → toI64 (inst f) = inst f)) := by
  obtain ⟨-, -, -, harms⟩ := derive_ok_components validate fields g hd
  refine ⟨?_, ?_, ?_, fun hr hw => narrow_exact ty (inst f) hr hw⟩
  · unfold get_field_value
    rw [harms]
    exact matchFieldArms_mem inst (integerFields fields) f ty hmem hnd
  · intro hu
    simp [fieldArmValue, hu]
  · intro hu
    simp [fieldArmValue, hu]

/-- Witness for C4: in `fieldsC4`, the signed field `b` holding `-5` is
returned as `Int (-5)` exactly, and the unsigned field of the same struct
exists alongside it. -/
theorem get_field_value_integer_field_tagged_witness :
    get_field_value gC4 instC4 "b" = .ok (fieldArmValue .i32 (instC4 "b")) ∧
    toI64 (instC4 "b") = instC4 "b" := by
  have h := get_field_value_integer_field_tagged validateTrue fieldsC4 gC4 instC4 "b" .i32
    rfl (by decide) (by decide)
  exact ⟨h.1, (h.2.2.2 (by decide) (by decide)).2 (by decide)⟩

theorem hashInput_congr (inst₁ inst₂ : Inst) :
    ∀ l : List (String × IntTy), (∀ p ∈ l, inst₁ p.1 = inst₂ p.1) →
      hashInput l inst₁ = hashInput l inst₂
  | [], _ => rfl
  | p :: rest, h => by
    have hp : inst₁ p.1 = inst₂ p.1 := h p (by simp)
    have ih := hashInput_congr inst₁ inst₂ rest fun q hq => h q (by simp [hq])
    simp only [hashInput, List.map_cons, List.flatten_cons, hp] at ih ⊢
    rw [ih]

/-- Claim C5: the generated `compute_data_hash` is the digest of the
concatenation of the little-endian byte strings of the integer-typed
fields, in declaration order, non-integer fields ignored; hence any two
instances agreeing on every integer-typed field produce identical
digests.  The SHA-256 primitive itself is external (`praborrow_prover::sha2`)
and enters as the abstract digest function `H`. -/
theorem compute_data_hash_le_bytes_concat (validate : String → Bool) (fields : List Field)
    (g : Generated) (H : List Nat → List Nat) (inst : Inst)
    (hd : derive_constitution validate (.namedStruct fields) = .ok g) :
    compute_data_hash H g inst =
      H (((integerFields fields).map fun p => leBytes p.2 (inst p.1)).flatten) ∧
    ∀ inst₂, (∀ p ∈ integerFields fields, inst p.1 = inst₂ p.1) →
      compute_data_hash H g inst = compute_data_hash H g inst₂ := by
  obtain ⟨-, -, hhash, -⟩ := derive_ok_components validate fields g hd
  constructor
  · unfold compute_data_hash hashInput
    rw [hhash]
  · intro inst₂ h
    unfold compute_data_hash
    rw [hhash, hashInput_congr inst inst₂ (integerFields fields) h]

/-- Witness for C5: two instances that agree on the integer fields `a`
and `b` of `fieldsC4` (but differ elsewhere) hash identically. -/
theorem compute_data_hash_le_bytes_concat_witness :
    compute_data_hash HW gC4 instC4 = compute_data_hash HW gC4 instC4b :=
  (compute_data_hash_le_bytes_concat validateTrue fieldsC4 gC4 HW instC4 rfl).2
    instC4b (by decide)

theorem processAttrs_ok_texts (validate : String → Bool) :
    ∀ (attrs : List Attr) (cs : List Check), processAttrs validate attrs = .ok cs →
      cs.map Prod.fst = (attrs.map attrCanonicalTexts).flatten
  | [], cs, h => by
    simp only [processAttrs] at h
    injection h with h1
    subst h1
    rfl
  | .otherAttr :: rest, cs, h => by
    simp only [processAttrs] at h
    have ih := processAttrs_ok_texts validate rest cs h
    simpa [attrCanonicalTexts] using ih
  | .invariant .unparsableArg :: _, cs, h => by simp [processAttrs] at h
  | .invariant (.strArg s none) :: _, cs, h => by simp [processAttrs] at h
  | .invariant (.strArg s (some cond)) :: rest, cs, h => by
    simp only [processAttrs] at h
    cases hv : validate s with
    | false => simp [hv] at h
    | true =>
      simp only [hv, if_pos] at h
      cases hrec : processAttrs validate rest with
      | error e => simp [hrec] at h
      | ok tail =>
        simp only [hrec] at h
        injection h with h1
        subst h1
        have ih := processAttrs_ok_texts validate rest tail hrec
        simp [attrCanonicalTexts, ih]
  | .invariant (.exprArg text cond) :: rest, cs, h => by
    simp only [processAttrs] at h
    cases hv : validate text with
    | false => simp [hv] at h
    | true =>
      simp only [hv, if_pos] at h
      cases hrec : processAttrs validate rest with
      | error e => simp [hrec] at h
      | ok tail =>
        simp only [hrec] at h
        injection h with h1
        subst h1
        have ih := processAttrs_ok_texts validate rest tail hrec
        simp [attrCanonicalTexts, ih]

theorem processFields_ok_texts (validate : String → Bool) :
    ∀ (fields : List Field) (cs : List Check), processFields validate fields = .ok cs →
      cs.map Prod.fst = invariantTexts fields
  | [], cs, h => by
    simp only [processFields] at h
    injection h with h1
    subst h1
    rfl
  | f :: rest, cs, h => by
    simp only [processFields] at h
    cases ha : processAttrs validate f.attrs with
    | error e => simp [ha] at h
    | ok checks =>
      simp only [ha] at h
      cases hr : processFields validate rest with
      | error e => simp [hr] at h
      | ok tail =>
        simp only [hr] at h
        injection h with h1
        subst h1
        have h2 := processAttrs_ok_texts validate f.attrs checks ha
        have h3 := processFields_ok_texts validate rest tail hr
        simp [invariantTexts, List.map_append, h2, h3]

/-- Claim C6: `verify_with_context` hands the external proof context the
field-value provider built from the instance together with the complete
compile-time list of all invariant canonical texts in declaration order
(never filtered, whatever `enforce_law` would return on the instance),
and relays the context's token-or-error outcome unchanged. -/
theorem verify_with_context_complete_invariant_list (validate : String → Bool)
    (fields : List Field) (g : Generated) (ctx : SmtVerify) (inst : Inst)
    (hd : derive_constitution validate (.namedStruct fields) = .ok g) :
    verify_with_context g ctx inst = ctx (get_field_value g inst) (invariantTexts fields) := by
  obtain ⟨hp, hinv, -, -⟩ := derive_ok_components validate fields g hd
  unfold verify_with_context
  rw [hinv, processFields_ok_texts validate fields g.runtimeChecks hp]

/-- Witness for C6: on `gC6` (one failing invariant under `instA`), the
proof context still receives both invariant texts and its outcome is
relayed unchanged. -/
theorem verify_with_context_complete_invariant_list_witness :
    verify_with_context gC6 ctxW instA = ctxW (get_field_value gC6 instA) (invariantTexts fieldsC6) ∧
    verify_with_context gC6 ctxW instA = .ok .token :=
  ⟨verify_with_context_complete_invariant_list validateTrue fieldsC6 gC6 ctxW instA rfl, rfl⟩

theorem runChecks_congr (inst₁ inst₂ : Inst) :
    ∀ cs : List Check, (∀ p ∈ cs, p.2 inst₁ = p.2 inst₂) →
      runChecks inst₁ cs = runChecks inst₂ cs ∧
      runChecksEvalCount inst₁ cs = runChecksEvalCount inst₂ cs
  | [], _ => ⟨rfl, rfl⟩
  | (s, c) :: rest, h => by
    have hc : c inst₁ = c inst₂ := h (s, c) (by simp)
    have ih := runChecks_congr inst₁ inst₂ rest fun p hp => h p (by simp [hp])
    cases hv : c inst₂ with
    | true =>
      simp only [runChecks, runChecksEvalCount, hc, hv, if_pos]
      exact ⟨ih.1, by rw [ih.2]⟩
    | false => simp [runChecks, runChecksEvalCount, hc, hv]

/-- Claim C8: `enforce_law` is a pure function of the condition values at
the instance — two calls whose conditions evaluate identically (in
particular, two calls on instances with the same field values) return the
same result and evaluate the same number of conditions.  Mutation is
impossible in this embedding exactly as in the generated code, which only
reads `&self`. -/
theorem enforce_law_deterministic (g : Generated) (inst₁ inst₂ : Inst)
    (h : ∀ p ∈ g.runtimeChecks, p.2 inst₁ = p.2 inst₂) :
    enforce_law g inst₁ = enforce_law g inst₂ ∧
    runChecksEvalCount inst₁ g.runtimeChecks = runChecksEvalCount inst₂ g.runtimeChecks :=
  runChecks_congr inst₁ inst₂ g.runtimeChecks h

/-- Witness for C8: `instC4` and `instC4b` agree on the fields the
conditions of `gC6` read, so both calls return the same result. -/
theorem enforce_law_deterministic_witness :
    enforce_law gC6 instC4 = enforce_law gC6 instC4b :=
  (enforce_law_deterministic gC6 instC4 instC4b (by decide)).1

theorem runChecks_error_values (inst : Inst) :
    ∀ (cs : List Check) (s : String) (vs : List (String × Int)),
      runChecks inst cs = .error (.invariantViolation s vs) → vs = []
  | [], s, vs, h => by simp [runChecks] at h
  | (s', c) :: rest, s, vs, h => by
    cases hc : c inst with
    | true =>
      simp only [runChecks, hc, if_pos] at h
      exact runChecks_error_values inst rest s vs h
    | false =>
      simp only [runChecks, hc] at h
      simp at h
      exact h.2

/-- Claim C9: every `InvariantViolation` returned by the generated
`enforce_law` carries an empty field-value map — the generated code builds
`BTreeMap::new()` for each violation and never populates it. -/
theorem invariant_violation_values_empty (g : Generated) (inst : Inst) (s : String)
    (vs : List (String × Int))
    (h : enforce_law g inst = .error (.invariantViolation s vs)) : vs = [] :=
  runChecks_error_values inst g.runtimeChecks s vs h

/-- Witness for C9: on `instFail` the first invariant of `gC6` fails and
its reported map is empty. -/
theorem invariant_violation_values_empty_witness :
    enforce_law gC6 instFail = .error (.invariantViolation "self . a > 0" []) ∧
    ([] : List (String × Int)) = [] :=
  ⟨rfl, invariant_violation_values_empty gC6 instFail "self . a > 0" [] rfl⟩

/-- Claim C10: for any input shape other than a struct with named fields,
the derive succeeds without error and generates trivial capabilities:
`enforce_law` always succeeds, the invariant list is empty, the data hash
is the digest of the empty byte sequence, `get_field_value` fails for
every name, and `verify_with_context` hands the context the empty list. -/
theorem other_shape_trivial_capabilities (validate : String → Bool) (inst : Inst)
    (name : String) (H : List Nat → List Nat) (ctx : SmtVerify) :
    ∃ g, derive_constitution validate .otherShape = .ok g ∧
      enforce_law g inst = .ok () ∧
      g.invariantStrings = [] ∧
      compute_data_hash H g inst = H [] ∧
      get_field_value g inst name = .error (.parseError ("Unknown field: " ++ name)) ∧
      verify_with_context g ctx inst = ctx (get_field_value g inst) [] :=
  ⟨_, rfl, rfl, rfl, rfl, rfl, rfl⟩

end PraborrowDefense
